import Mathlib

/-!
Shallow embedding of the `desired_state` repository (Rust) for verification.

The embedding follows the source files under `src/`:
  * `state.rs` — the `DesiredState` store: `load`, `list`, `set_service`,
    `remove_service`, `persist`.  The Rust `HashSet<Service>` (with equality
    and hashing by `name` alone) is modelled as a `List Service` together
    with a uniqueness-of-names invariant; `HashSet::replace` and
    `HashSet::take` are modelled by name-keyed operations.
  * `desired_state_file.rs` — the codec: `read`, `write`,
    `create_template_file`.  The Rust `BTreeMap<String, Service>` is
    modelled as an association list with unique keys; iteration order is
    abstracted (the round-trip claim is about set-equality, which is
    order-independent).  YAML encoding/decoding by `serde_yaml` is the
    external library boundary: the codec logic (existence / emptiness /
    parse-failure branching, struct conversions, map rebuilding) is
    embedded, while serialization to text is abstracted as a parameter.
  * `watcher.rs` / `cli.rs` — the notification filter:
    `event_affects_target`, `is_state_change`, `canonicalize_for_watch`
    (both files contain textually identical copies of these functions).
    Filesystem canonicalization is abstracted as a parameter function.

Effects (file writes, reads) are made explicit: functions take the current
file content and the success of the underlying I/O as inputs and return the
resulting content / outcome.
-/

/-- Semantic version, `semver::Version` restricted to the numeric triple
(the repository only ever constructs and compares plain `x.y.z` versions). -/
structure Version where
  major : Nat
  minor : Nat
  patch : Nat
deriving DecidableEq, Repr

/-- Version requirement expression, `semver::VersionReq`.  The repository
stores parsed requirements verbatim and never inspects their structure, so
the requirement is modelled as its canonical rendering. -/
structure VersionReq where
  raw : String
deriving DecidableEq, Repr

/-- The `*` requirement, `VersionReq::STAR` (used by `Service::placeholder`). -/
def VersionReq.star : VersionReq := ⟨"*"⟩

/-- A service entry (`state.rs`, `struct Service`). -/
structure Service where
  name : String
  version_req : VersionReq
deriving DecidableEq, Repr

/-- Service constructor (`Service::new`). -/
def Service.new (name : String) (version_req : VersionReq) : Service :=
  ⟨name, version_req⟩

/-- Placeholder service used as a lookup key by `remove_service`
(`Service::placeholder`): carries the name and the `*` requirement. -/
def Service.placeholder (name : String) : Service :=
  ⟨name, VersionReq.star⟩

/-- Rust `Service` equality is by `name` alone (`impl PartialEq for Service`). -/
def Service.sameName (a b : Service) : Bool :=
  a.name == b.name

/-- The names of a service list are pairwise distinct: the representation
invariant of the Rust `HashSet<Service>` given that `Service` equality and
hashing are by `name` alone. -/
def uniqueNames (l : List Service) : Prop :=
  (l.map Service.name).Nodup

instance (l : List Service) : Decidable (uniqueNames l) := by
  unfold uniqueNames; infer_instance

/-- Model of `HashSet::insert` as used by `collect()` in
`DesiredState::load`: an element equal (by name) to an existing one is NOT
inserted — the first occurrence wins. -/
def hsInsert (l : List Service) (v : Service) : List Service :=
  if l.any (fun s => s.name == v.name) then l else l ++ [v]

/-- Model of `Vec::into_iter().collect::<HashSet<_>>()`. -/
def hsCollect (vec : List Service) : List Service :=
  vec.foldl hsInsert []

/-- Model of `HashSet::replace`: inserts the value, replacing (by-name) any
existing equal element. -/
def hsReplace (l : List Service) (v : Service) : List Service :=
  v :: l.filter (fun s => ¬ s.name = v.name)

/-- Model of `HashSet::take` restricted to its effect on the set: removes
the element equal (by name) to the key, if present. -/
def hsRemove (l : List Service) (name : String) : List Service :=
  l.filter (fun s => ¬ s.name = name)

/-- Whether the set contains an element with the given name
(`HashSet::take(..).is_some()` on a placeholder keyed by name). -/
def hsContains (l : List Service) (name : String) : Bool :=
  l.any (fun s => s.name == name)

/-- The in-memory desired state (`state.rs`, `struct DesiredState`).  The
`path` field is environmental (it only routes I/O) and is omitted; I/O
outcomes are passed explicitly to the operations instead. -/
structure DesiredState where
  file_version : Version
  services : List Service
deriving DecidableEq, Repr

/-- `get_current_file_version()` in `state.rs`: `Version::new(0,1,0)`. -/
def get_current_file_version : Version := ⟨0, 1, 0⟩

/-- List the services sorted by name (`DesiredState::list`): Rust sorts the
snapshot with `sort_by(|a, b| a.name.cmp(&b.name))`. -/
def DesiredState.list (st : DesiredState) : List Service :=
  st.services.insertionSort (fun a b => a.name ≤ b.name)

/-- Outcome of a mutating operation: the state afterwards, whether the call
returned successfully, and whether a persist (file write) was attempted. -/
structure MutationOutcome (ρ : Type) where
  state : DesiredState
  result : Option ρ
  persistAttempted : Bool
deriving Repr

/-- Model of `DesiredState::set_service`: builds the new service, `replace`s
it into the set, then persists.  The in-memory mutation happens BEFORE
persistence is attempted; `persistOk` says whether the file write succeeds
(`result = none` models the `Err` return). -/
def DesiredState.set_service (st : DesiredState) (name : String)
    (version_req : VersionReq) (persistOk : Bool) : MutationOutcome Unit :=
  let st' := { st with services := hsReplace st.services (Service.new name version_req) }
  { state := st'
    result := if persistOk then some () else none
    persistAttempted := true }

/-- Model of `DesiredState::remove_service`: `take`s the placeholder-keyed
element; persists only when an element existed.  As in the source, the
in-memory removal happens before persistence; on persist failure the call
returns `Err` (`result = none`) with the element already removed. -/
def DesiredState.remove_service (st : DesiredState) (name : String)
    (persistOk : Bool) : MutationOutcome Bool :=
  let existed := hsContains st.services name
  if existed then
    { state := { st with services := hsRemove st.services name }
      result := if persistOk then some true else none
      persistAttempted := true }
  else
    { state := st, result := some false, persistAttempted := false }

/-- On-disk document shape parsed by `state.rs` (`struct DesiredStateFile`
there): a version and a vector of services. -/
structure StateFileDoc where
  version : Version
  services : List Service
deriving DecidableEq, Repr

/-- The Rust emptiness check `raw.trim().is_empty()`: the content consists
solely of whitespace characters. -/
def isBlank (raw : String) : Bool :=
  raw.toList.all Char.isWhitespace

/-- Model of `DesiredState::load`.  Inputs: the backing file's content
(`none` when the file does not exist), whether `fs::read_to_string`
succeeds, the YAML parse (abstracted: `serde_yaml::from_str` as a function
from raw text to an optional document), and whether the initial `persist`
of a freshly defaulted state succeeds.  Output `none` models an `Err`
return. -/
def DesiredState.load (fileContent : Option String) (readOk : Bool)
    (parse : String → Option StateFileDoc) (persistOk : Bool) :
    Option DesiredState :=
  match fileContent with
  | none =>
      -- missing file: default to empty, then `state.persist()?`
      if persistOk then
        some { file_version := get_current_file_version, services := [] }
      else none
  | some raw =>
      if ¬ readOk then none
      else if isBlank raw then
        some { file_version := get_current_file_version, services := [] }
      else
        match parse raw with
        | none => none
        | some doc =>
            some { file_version := doc.version, services := hsCollect doc.services }

/-! The codec, `desired_state_file.rs`. -/

/-- On-disk service record (`struct DesiredStateFileService`): name and the
version requirement (serialized under the key `version`). -/
structure FileServiceRecord where
  name : String
  version : VersionReq
deriving DecidableEq, Repr

/-- On-disk document (`struct DesiredStateFile` in `desired_state_file.rs`). -/
structure CodecDoc where
  version : Version
  services : List FileServiceRecord
deriving DecidableEq, Repr

/-- Conversion `impl From<DesiredStateFileService> for Service`. -/
def FileServiceRecord.toService (r : FileServiceRecord) : Service :=
  { name := r.name, version_req := r.version }

/-- Conversion `impl From<&Service> for DesiredStateFileService`. -/
def Service.toRecord (s : Service) : FileServiceRecord :=
  { name := s.name, version := s.version_req }

/-- `current_file_version()` in `desired_state_file.rs`: `Version::new(0,1,0)`. -/
def current_file_version : Version := ⟨0, 1, 0⟩

/-- A `BTreeMap<String, Service>` modelled as an association list with
unique keys.  Order of iteration is abstracted: every claim about the map
(round-trip set-equality) is order-independent. -/
abbrev BTMap := List (String × Service)

/-- Map insertion (`BTreeMap::insert` semantics as used by `collect()` on
an iterator of pairs): a later binding for the same key overwrites the
earlier one. -/
def btInsert (m : BTMap) (k : String) (v : Service) : BTMap :=
  (m.filter (fun kv => ¬ kv.1 = k)) ++ [(k, v)]

/-- Model of `collect::<BTreeMap<_,_>>()` on a list of key/value pairs. -/
def btCollect (l : List (String × Service)) : BTMap :=
  l.foldl (fun m kv => btInsert m kv.1 kv.2) []

/-- The values of the map (`BTreeMap::values()`), in the map's iteration
order (abstracted to the representation order). -/
def btValues (m : BTMap) : List Service :=
  m.map Prod.snd

/-- The `(name, versionReq)` pairs denoted by a service mapping, as a
finite set — the notion of set-equality used by the round-trip property. -/
def btPairs (m : BTMap) : Finset (String × VersionReq) :=
  (m.map (fun kv => (kv.2.name, kv.2.version_req))).toFinset

/-- The template document built by `create_template_file`: two example
entries with requirements `^1.2.3` and `>0.1.0`. -/
def templateDoc : CodecDoc :=
  { version := current_file_version
    services :=
      [ { name := "example-service", version := ⟨"^1.2.3"⟩ }
      , { name := "second-example-service", version := ⟨">0.1.0"⟩ } ] }

/-- The lines written by `create_template_file`: a header comment followed
by every line of the serialized template document prefixed with `"# "`.
`yamlLines` stands for `serde_yaml::to_string(&template_yml).lines()`. -/
def templateLines (yamlLines : List String) : List String :=
  "# This is an automatically generated desired state template"
    :: yamlLines.map (fun l => "# " ++ l)

/-- The template file content: the template lines joined with newlines
(Rust pushes each line followed by `'\n'`). -/
def templateText (yamlLines : List String) : String :=
  String.join ((templateLines yamlLines).map (fun l => l ++ "\n"))

/-- Result of `desired_state_file::read`: the backing file's content after
the call (`read` recreates the template in some branches) and the returned
`(version, services)` pair.  `none` as `fileAfter` never occurs here but
`read` is total on the modelled inputs. -/
structure CodecReadResult where
  fileAfter : Option String
  version : Version
  services : BTMap

/-- Model of `desired_state_file::read`.  Inputs: the file content (`none`
when the file does not exist), whether `fs::read_to_string` succeeds, the
abstract YAML parse (`serde_yaml::from_str`) and the abstract YAML
serialization used by `create_template_file` (as the list of lines of
`serde_yaml::to_string(&template_yml)`). -/
def codec_read (fileContent : Option String) (readOk : Bool)
    (parse : String → Option CodecDoc) (templateYamlLines : List String) :
    CodecReadResult :=
  match fileContent with
  | none =>
      { fileAfter := some (templateText templateYamlLines)
        version := current_file_version, services := [] }
  | some raw =>
      if ¬ readOk then
        { fileAfter := some (templateText templateYamlLines)
          version := current_file_version, services := [] }
      else if isBlank raw then
        { fileAfter := some (templateText templateYamlLines)
          version := current_file_version, services := [] }
      else
        match parse raw with
        | none =>
            { fileAfter := some raw
              version := current_file_version, services := [] }
        | some doc =>
            { fileAfter := some raw
              version := doc.version
              services := btCollect (doc.services.map
                (fun r => (r.toService.name, r.toService))) }

/-- Model of `desired_state_file::write` at the document level: the written
document carries the given version and the map's values converted to
records (in the map's iteration order). -/
def codec_write (version : Version) (services : BTMap) : CodecDoc :=
  { version := version
    services := (btValues services).map Service.toRecord }

/-- Reading back a document that `write` produced, i.e. the map-rebuilding
part of `read` applied to a parsed document (YAML text round-tripping via
`serde_yaml` is the external library's contract and is abstracted away). -/
def codec_read_doc (doc : CodecDoc) : Version × BTMap :=
  (doc.version,
   btCollect (doc.services.map (fun r => (r.toService.name, r.toService))))

/-! The notification filter, `watcher.rs` and `cli.rs` (textually identical
in both files). -/

/-- The top-level `notify::EventKind` variants. -/
inductive EventKind where
  | any
  | access
  | create
  | modify
  | remove
  | other
deriving DecidableEq, Repr

/-- A filesystem notification: its kind and its paths. -/
structure FsEvent where
  kind : EventKind
  paths : List String
deriving DecidableEq, Repr

/-- Model of `canonicalize_for_watch`: `fs::canonicalize` is environmental,
abstracted as `canon`; on canonicalization failure the path itself is
used. -/
def canonicalize_for_watch (canon : String → Option String) (p : String) : String :=
  (canon p).getD p

/-- Model of `event_affects_target`: an event with no paths is accepted
conservatively; otherwise some path must canonicalize to the target. -/
def event_affects_target (canon : String → Option String) (e : FsEvent)
    (target : String) : Bool :=
  e.paths.isEmpty || e.paths.any (fun p => canonicalize_for_watch canon p == target)

/-- Model of `is_state_change`: matches `Modify(_) | Create(_) | Remove(_)
| Any`. -/
def is_state_change (kind : EventKind) : Bool :=
  match kind with
  | .modify | .create | .remove | .any => true
  | _ => false

/-- The reconciliation loop's acceptance test (`watch_loop` / `cli::run`):
`event_affects_target(&event, &watch_target) && is_state_change(&event.kind)`. -/
def acceptsEvent (canon : String → Option String) (e : FsEvent)
    (target : String) : Bool :=
  event_affects_target canon e target && is_state_change e.kind

/-- Acceptance predicate as the specification words it (for comparison with
`acceptsEvent`): the path condition, AND the kind is create, modify or
remove — not purely metadata/access. -/
def specAcceptsEvent (canon : String → Option String) (e : FsEvent)
    (target : String) : Bool :=
  (e.paths.isEmpty || e.paths.any (fun p => canonicalize_for_watch canon p == target))
    && (e.kind == .create || e.kind == .modify || e.kind == .remove)

/-! Reachability and events. -/

/-- States reachable through `load`, `set_service` and `remove_service`
(the only constructors and mutators of `DesiredState` in `state.rs`). -/
inductive Reachable : DesiredState → Prop where
  | load : ∀ fileContent readOk parse persistOk st,
      DesiredState.load fileContent readOk parse persistOk = some st →
      Reachable st
  | set : ∀ st name vr persistOk, Reachable st →
      Reachable (st.set_service name vr persistOk).state
  | remove : ∀ st name persistOk, Reachable st →
      Reachable (st.remove_service name persistOk).state

/-- Modelled from the spec: the number of `StateUpdated` events emitted by
a `Remove` call.  The event machinery (`StateEvent`, `subscribe`, emission)
belongs to a part of the state store that is not present under `src/`
(`watcher.rs`, `cli.rs` and `main.rs` reference it); per the spec, `Remove`
of an absent name emits no event, and a committed removal (present name,
successful persistence) emits exactly one. -/
def remove_service_eventCount (st : DesiredState) (name : String)
    (persistOk : Bool) : Nat :=
  if hsContains st.services name && persistOk then 1 else 0

/-! Theorems. -/

instance : IsTotal Service (fun a b => a.name ≤ b.name) :=
  ⟨fun a b => le_total a.name b.name⟩

instance : IsTrans Service (fun a b => a.name ≤ b.name) :=
  ⟨fun _ _ _ h1 h2 => le_trans h1 h2⟩

/-- C4: for every DesiredState — in particular every reachable one, no
matter in which order services were inserted or removed — `list()` is
sorted in ascending order by service name. -/
theorem list_sorted_by_name (st : DesiredState) :
    (DesiredState.list st).Sorted (fun a b => a.name ≤ b.name) :=
  List.sorted_insertionSort _ st.services

/-- C1 counterexample: starting from the empty mapping, `Set("api",
"^1.2.3")` with a failing persist returns an error, yet the in-memory
mapping afterwards is not the mapping before the call (the service is
already inserted): `set_service` mutates first and persists second. -/
theorem set_service_persist_failure_cex :
    (DesiredState.set_service ⟨get_current_file_version, []⟩ "api" ⟨"^1.2.3"⟩ false).result
        = none ∧
    (DesiredState.set_service ⟨get_current_file_version, []⟩ "api" ⟨"^1.2.3"⟩ false).state.services
        ≠ ([] : List Service) := by
  constructor
  · rfl
  · simp [DesiredState.set_service, hsReplace]

/-- C1 (amended): mutations commit in memory before persistence is
attempted.  For both `Set` and `Remove`, the state after a call whose
persist fails equals the state after the same call with a successful
persist (the mutation is applied regardless of the persistence outcome),
and the failed call reports an error instead of rolling back. -/
theorem mutation_applied_before_persist (st : DesiredState) (name : String)
    (vr : VersionReq) :
    (st.set_service name vr false).state = (st.set_service name vr true).state ∧
    (st.set_service name vr false).result = none ∧
    (st.remove_service name false).state = (st.remove_service name true).state ∧
    (hsContains st.services name = true →
      (st.remove_service name false).result = none) := by
  refine ⟨rfl, rfl, ?_, ?_⟩
  · unfold DesiredState.remove_service
    cases h : hsContains st.services name <;> simp [h]
  · intro h
    simp [DesiredState.remove_service, h]

/-- Witness for `mutation_applied_before_persist` at a concrete state that
contains the removed name. -/
theorem mutation_applied_before_persist_witness :
    hsContains [Service.new "api" ⟨"^1.2.3"⟩] "api" = true ∧
    (DesiredState.remove_service ⟨get_current_file_version, [Service.new "api" ⟨"^1.2.3"⟩]⟩
        "api" false).result = none :=
  ⟨by decide,
    (mutation_applied_before_persist
      ⟨get_current_file_version, [Service.new "api" ⟨"^1.2.3"⟩]⟩
      "api" ⟨"^1.2.3"⟩).2.2.2 (by decide)⟩

/-- C8 counterexample: a notification with no paths and kind
`EventKind::Any` is accepted by the code (`is_state_change` matches `Any`),
but its kind is none of create, modify, remove, so the claim's acceptance
predicate rejects it. -/
theorem acceptsEvent_any_cex :
    acceptsEvent (fun _ => none) { kind := .any, paths := [] } "target" = true ∧
    specAcceptsEvent (fun _ => none) { kind := .any, paths := [] } "target" = false := by
  decide

/-- C8 (amended): the loop accepts a notification if and only if (its path
list is empty, or at least one path canonicalizes to the watch target) and
its kind is create, modify, remove, or the unqualified kind `Any` — not
access or other. -/
theorem acceptsEvent_iff (canon : String → Option String) (e : FsEvent)
    (target : String) :
    acceptsEvent canon e target = true ↔
      ((e.paths = [] ∨ ∃ p ∈ e.paths, canonicalize_for_watch canon p = target) ∧
        (e.kind = .create ∨ e.kind = .modify ∨ e.kind = .remove ∨ e.kind = .any)) := by
  rcases e with ⟨k, ps⟩
  cases k <;>
    simp [acceptsEvent, event_affects_target, is_state_change,
      List.isEmpty_iff, List.any_eq_true]

/-- Replacing a service leaves exactly that service among the entries
carrying its name. -/
theorem filter_hsReplace (l : List Service) (v : Service) :
    (hsReplace l v).filter (fun s => s.name == v.name) = [v] := by
  have hnil : (l.filter (fun s => ¬ s.name = v.name)).filter
      (fun s => s.name == v.name) = [] := by
    apply List.filter_eq_nil_iff.mpr
    intro a ha
    have h2 := (List.mem_filter.mp ha).2
    simp only [decide_not, Bool.not_eq_true', decide_eq_false_iff_not] at h2
    simp [h2]
  simp [hsReplace, List.filter_cons, hnil]

/-- Filtering the sorted `list()` output agrees with filtering the raw
service set whenever the latter is a singleton (sorting is a
permutation). -/
theorem filter_list_eq_singleton (st : DesiredState) (p : Service → Bool)
    (v : Service) (h : st.services.filter p = [v]) :
    st.list.filter p = [v] := by
  have hp : List.Perm (st.list.filter p) (st.services.filter p) :=
    (List.perm_insertionSort _ st.services).filter p
  rw [h] at hp
  exact List.perm_singleton.mp hp

/-- C2: after a successful `Set(name, expr)`, `List()` contains exactly one
entry named `name`, and that entry carries exactly the requirement that was
passed (the store keeps requirements verbatim, so canonicalization is
identity); a second `Set` of the same name leaves exactly one entry holding
the last requirement written. -/
theorem set_service_list_spec (st : DesiredState) (name : String)
    (vr vr2 : VersionReq) (persistOk : Bool) (h : persistOk = true) :
    (st.set_service name vr persistOk).result = some () ∧
    ((st.set_service name vr persistOk).state.list.filter
        (fun s => s.name == name)) = [Service.new name vr] ∧
    (((st.set_service name vr persistOk).state.set_service name vr2
        persistOk).state.list.filter (fun s => s.name == name))
      = [Service.new name vr2] := by
  subst h
  refine ⟨rfl, ?_, ?_⟩ <;>
  · apply filter_list_eq_singleton
    exact filter_hsReplace ..

/-- Witness for `set_service_list_spec` at a concrete input (Scenario B of
the specification). -/
theorem set_service_list_spec_witness :
    (true = true) ∧
    ((DesiredState.set_service ⟨get_current_file_version, []⟩ "api"
        ⟨"^1.2.3"⟩ true).state.list.filter (fun s => s.name == "api"))
      = [Service.new "api" ⟨"^1.2.3"⟩] :=
  ⟨rfl, (set_service_list_spec ⟨get_current_file_version, []⟩ "api"
    ⟨"^1.2.3"⟩ ⟨">2.0.0"⟩ true rfl).2.1⟩

/-- C3: `Remove` of an absent name returns `false`, attempts no
persistence, emits no event (event emission modelled from the spec, see
`remove_service_eventCount`) and leaves the state unchanged; `Remove` of a
present name (with persistence succeeding) returns `true` and the name no
longer appears in `List()`. -/
theorem remove_service_spec (st : DesiredState) (name : String)
    (persistOk : Bool) :
    (hsContains st.services name = false →
      (st.remove_service name persistOk).result = some false ∧
      (st.remove_service name persistOk).state = st ∧
      (st.remove_service name persistOk).persistAttempted = false ∧
      remove_service_eventCount st name persistOk = 0) ∧
    (hsContains st.services name = true → persistOk = true →
      (st.remove_service name persistOk).result = some true ∧
      ∀ s ∈ (st.remove_service name persistOk).state.list, ¬ s.name = name) := by
  constructor
  · intro h
    simp [DesiredState.remove_service, remove_service_eventCount, h]
  · intro h hp
    subst hp
    refine ⟨by simp [DesiredState.remove_service, h], ?_⟩
    intro s hs
    have hmem : s ∈ (st.remove_service name true).state.services :=
      (List.perm_insertionSort _ _).mem_iff.mp hs
    have hsvc : (st.remove_service name true).state.services
        = hsRemove st.services name := by
      simp [DesiredState.remove_service, h]
    rw [hsvc] at hmem
    exact of_decide_eq_true (List.mem_filter.mp hmem).2

/-- Witness for `remove_service_spec`: removing `"api"` from the empty
state returns `false`; removing it from a state containing it returns
`true`. -/
theorem remove_service_spec_witness :
    (DesiredState.remove_service ⟨get_current_file_version, []⟩ "api" true).result
        = some false ∧
    (DesiredState.remove_service ⟨get_current_file_version,
        [Service.new "api" ⟨"^1.2.3"⟩]⟩ "api" true).result = some true :=
  ⟨((remove_service_spec ⟨get_current_file_version, []⟩ "api" true).1 (by decide)).1,
    ((remove_service_spec ⟨get_current_file_version,
      [Service.new "api" ⟨"^1.2.3"⟩]⟩ "api" true).2 (by decide) rfl).1⟩

/-- Inserting into the set keeps names unique: an element whose name is
already present is not inserted. -/
theorem uniqueNames_hsInsert (l : List Service) (v : Service)
    (h : uniqueNames l) : uniqueNames (hsInsert l v) := by
  unfold hsInsert
  by_cases hc : l.any (fun s => s.name == v.name) = true
  · simpa [hc] using h
  · have hnotin : v.name ∉ l.map Service.name := by
      intro hmem
      rcases List.mem_map.mp hmem with ⟨s, hs, hname⟩
      exact hc (List.any_eq_true.mpr ⟨s, hs, by simp [hname]⟩)
    rw [if_neg hc]
    unfold uniqueNames at h ⊢
    simp only [List.map_append, List.map_cons, List.map_nil]
    refine List.nodup_append.mpr ⟨h, List.nodup_singleton _, fun a ha hb => ?_⟩
    rw [List.mem_singleton] at hb
    exact hnotin (hb ▸ ha)

/-- Collecting a vector into the set yields unique names. -/
theorem uniqueNames_hsCollect (vec : List Service) :
    uniqueNames (hsCollect vec) := by
  suffices h : ∀ acc, uniqueNames acc → uniqueNames (vec.foldl hsInsert acc) from
    h [] (by simp [uniqueNames])
  induction vec with
  | nil => exact fun acc h => h
  | cons v t ih => exact fun acc h => ih _ (uniqueNames_hsInsert _ _ h)

/-- `replace` keeps names unique. -/
theorem uniqueNames_hsReplace (l : List Service) (v : Service)
    (h : uniqueNames l) : uniqueNames (hsReplace l v) := by
  unfold hsReplace uniqueNames
  simp only [List.map_cons]
  refine List.nodup_cons.mpr ⟨?_, ?_⟩
  · intro hmem
    rcases List.mem_map.mp hmem with ⟨s, hs, hname⟩
    have h2 := (List.mem_filter.mp hs).2
    simp only [decide_not, Bool.not_eq_true', decide_eq_false_iff_not] at h2
    exact h2 hname
  · exact List.Nodup.sublist ((List.filter_sublist l).map Service.name) h

/-- Removal keeps names unique. -/
theorem uniqueNames_hsRemove (l : List Service) (name : String)
    (h : uniqueNames l) : uniqueNames (hsRemove l name) :=
  List.Nodup.sublist ((List.filter_sublist l).map Service.name) h

/-- C9: every DesiredState reachable through `load`, `set_service` and
`remove_service` contains no two services with the same name (service
equality and hashing are by name alone, so the backing `HashSet` keys
services by name). -/
theorem reachable_uniqueNames (st : DesiredState) (h : Reachable st) :
    uniqueNames st.services := by
  induction h with
  | load fileContent readOk parse persistOk st hload =>
      unfold DesiredState.load at hload
      match fileContent with
      | none =>
          by_cases hp : persistOk = true
          · simp only [hp, if_true] at hload
            cases hload
            simp [uniqueNames]
          · simp [hp] at hload
      | some raw =>
          by_cases hr : readOk = true
          · by_cases hb : isBlank raw = true
            · simp only [hr, hb] at hload
              simp at hload
              cases hload
              simp [uniqueNames]
            · simp only [hr, hb] at hload
              simp at hload
              match hparse : parse raw with
              | none => rw [hparse] at hload; cases hload
              | some doc =>
                  rw [hparse] at hload
                  cases hload
                  exact uniqueNames_hsCollect doc.services
          · simp [hr] at hload
  | set st name vr persistOk _ ih =>
      simpa [DesiredState.set_service] using uniqueNames_hsReplace st.services _ ih
  | remove st name persistOk _ ih =>
      unfold DesiredState.remove_service
      by_cases hc : hsContains st.services name = true
      · simpa [hc] using uniqueNames_hsRemove st.services name ih
      · simpa [hc] using ih

/-- Witness for `reachable_uniqueNames`: a state reached by loading a
missing file and then setting two services has unique names. -/
theorem reachable_uniqueNames_witness :
    uniqueNames (((DesiredState.set_service
        ((DesiredState.set_service ⟨get_current_file_version, []⟩
          "api" ⟨"^1.2.3"⟩ true).state) "db" ⟨">2.0.0"⟩ true).state).services) :=
  reachable_uniqueNames _
    (Reachable.set _ "db" ⟨">2.0.0"⟩ true
      (Reachable.set _ "api" ⟨"^1.2.3"⟩ true
        (Reachable.load none true (fun _ => none) true _ rfl)))

/-- The keys of a service mapping. -/
def btKeys (m : BTMap) : List String :=
  m.map Prod.fst

/-- Collecting a pair list whose keys are already distinct rebuilds exactly
that list (no overwriting occurs). -/
theorem btCollect_of_nodup_keys (m : List (String × Service))
    (h : (btKeys m).Nodup) : btCollect m = m := by
  suffices hgen : ∀ (t : List (String × Service)) (acc : BTMap),
      (btKeys (acc ++ t)).Nodup →
      t.foldl (fun m' kv => btInsert m' kv.1 kv.2) acc = acc ++ t by
    simpa using hgen m [] (by simpa using h)
  intro t
  induction t with
  | nil => intro acc _; simp [btCollect]
  | cons kv t ih =>
      intro acc h
      have hsplit : btKeys (acc ++ kv :: t)
          = btKeys acc ++ kv.1 :: btKeys t := by
        simp [btKeys]
      rw [hsplit] at h
      have hk : kv.1 ∉ btKeys acc := by
        rcases List.nodup_append.mp h with ⟨_, _, hdisj⟩
        intro hmem
        exact hdisj hmem (List.mem_cons_self _ _)
      have hins : btInsert acc kv.1 kv.2 = acc ++ [kv] := by
        unfold btInsert
        rw [List.filter_eq_self.mpr]
        intro a ha
        simp only [decide_not, Bool.not_eq_true', decide_eq_false_iff_not]
        intro heq
        exact hk (heq ▸ List.mem_map_of_mem Prod.fst ha)
      simp only [List.foldl_cons, hins]
      rw [ih (acc ++ [kv]) (by simpa [btKeys] using h)]
      simp

/-- C5: document-level persist-then-reload round trip.  For every schema
version and every well-formed service mapping (keys distinct and each key
equal to its service's name, as every mapping built by the codec and the
store is), reading back the document produced by `write` yields the same
version and a mapping whose set of `(name, versionReq)` pairs equals that
of the mapping written.  Text-level YAML encode/decode by `serde_yaml` is
the external library boundary and is abstracted away. -/
theorem codec_roundtrip (ver : Version) (m : BTMap)
    (hkeys : (btKeys m).Nodup)
    (hwf : ∀ kv ∈ m, kv.1 = kv.2.name) :
    codec_read_doc (codec_write ver m) = (ver, m) ∧
    btPairs (codec_read_doc (codec_write ver m)).2 = btPairs m := by
  have hmap : (codec_write ver m).services.map
      (fun r => (r.toService.name, r.toService)) = m := by
    unfold codec_write btValues
    simp only [List.map_map]
    have hcongr : ∀ kv ∈ m,
        ((fun r => (r.toService.name, r.toService)) ∘
          (Service.toRecord ∘ Prod.snd)) kv = id kv := by
      intro kv hkv
      have hname := hwf kv hkv
      cases kv
      simp [Service.toRecord, FileServiceRecord.toService] at hname ⊢
      exact hname.symm
    rw [List.map_congr_left hcongr, List.map_id]
  have hread : codec_read_doc (codec_write ver m) = (ver, m) := by
    unfold codec_read_doc
    rw [hmap]
    simp [codec_write, btCollect_of_nodup_keys m hkeys]
  exact ⟨hread, by rw [hread]⟩

/-- Witness for `codec_roundtrip` at a concrete two-entry mapping. -/
theorem codec_roundtrip_witness :
    codec_read_doc (codec_write ⟨0, 1, 0⟩
        [("api", Service.new "api" ⟨"^1.2.3"⟩),
         ("db", Service.new "db" ⟨">2.0.0"⟩)])
      = (⟨0, 1, 0⟩,
        [("api", Service.new "api" ⟨"^1.2.3"⟩),
         ("db", Service.new "db" ⟨">2.0.0"⟩)]) :=
  (codec_roundtrip ⟨0, 1, 0⟩
    [("api", Service.new "api" ⟨"^1.2.3"⟩),
     ("db", Service.new "db" ⟨">2.0.0"⟩)]
    (by decide) (by decide)).1

/-- C6: when the backing file does not exist, the codec's `read` creates
the template file (header plus the serialized example entries, every line
commented out, i.e. beginning with `#`) and reports an empty state with
the current schema version; the state loaded at startup from a missing
file is empty, so `List()` immediately afterwards returns the empty
sequence. -/
theorem missing_file_creates_template (yamlLines : List String)
    (readOk : Bool) (parseC : String → Option CodecDoc)
    (parseS : String → Option StateFileDoc) (persistOk : Bool) :
    codec_read none readOk parseC yamlLines =
      { fileAfter := some (templateText yamlLines)
        version := current_file_version, services := [] } ∧
    (∀ l ∈ templateLines yamlLines, l.data.head? = some '#') ∧
    (persistOk = true →
      DesiredState.load none readOk parseS persistOk
          = some { file_version := get_current_file_version, services := [] } ∧
      DesiredState.list
          { file_version := get_current_file_version, services := [] } = []) := by
  refine ⟨rfl, ?_, ?_⟩
  · intro l hl
    rcases List.mem_cons.mp hl with h | h
    · subst h; rfl
    · rcases List.mem_map.mp h with ⟨y, _, hy⟩
      subst hy
      rw [String.data_append]
      rfl
  · intro h
    subst h
    exact ⟨rfl, rfl⟩

/-- Witness for `missing_file_creates_template` with a concrete template
serialization and persistence succeeding. -/
theorem missing_file_creates_template_witness :
    codec_read none true (fun _ => none) ["version: 0.1.0"] =
      { fileAfter := some (templateText ["version: 0.1.0"])
        version := current_file_version, services := [] } ∧
    DesiredState.load none true (fun _ => none) true
      = some { file_version := get_current_file_version, services := [] } :=
  ⟨(missing_file_creates_template ["version: 0.1.0"] true
      (fun _ => none) (fun _ => none) true).1,
    ((missing_file_creates_template ["version: 0.1.0"] true
      (fun _ => none) (fun _ => none) true).2.2 rfl).1⟩

/-- C7: for an existing, non-empty backing file whose content fails to
parse, the codec's `read` reports an empty state with the current schema
version, leaves the file's content untouched (no template recreation on
this branch) and returns successfully rather than propagating a parse
error. -/
theorem malformed_read_reports_empty (raw : String)
    (parseC : String → Option CodecDoc) (yamlLines : List String)
    (h1 : isBlank raw = false) (h2 : parseC raw = none) :
    codec_read (some raw) true parseC yamlLines =
      { fileAfter := some raw
        version := current_file_version, services := [] } := by
  simp [codec_read, h1, h2]

/-- Witness for `malformed_read_reports_empty` on concrete malformed
content. -/
theorem malformed_read_reports_empty_witness :
    isBlank "not yaml [" = false ∧
    codec_read (some "not yaml [") true (fun _ => none) [] =
      { fileAfter := some "not yaml ["
        version := current_file_version, services := [] } :=
  ⟨by decide,
    malformed_read_reports_empty "not yaml [" (fun _ => none) [] (by decide) rfl⟩

/-- C10: `DesiredState::load` performs strict startup validation — an
existing, non-blank file that fails to parse makes `load` return an error
— while a file containing only whitespace loads successfully as the empty
state carrying the current schema version. -/
theorem load_strict_on_malformed (raw ws : String)
    (parseS : String → Option StateFileDoc) (persistOk : Bool)
    (h1 : isBlank raw = false) (h2 : parseS raw = none)
    (h3 : isBlank ws = true) :
    DesiredState.load (some raw) true parseS persistOk = none ∧
    DesiredState.load (some ws) true parseS persistOk
      = some { file_version := get_current_file_version, services := [] } := by
  constructor
  · simp [DesiredState.load, h1, h2]
  · simp [DesiredState.load, h3]

/-- Witness for `load_strict_on_malformed` on concrete contents. -/
theorem load_strict_on_malformed_witness :
    DesiredState.load (some "not yaml [") true (fun _ => none) true = none ∧
    DesiredState.load (some "  \n ") true (fun _ => none) true
      = some { file_version := get_current_file_version, services := [] } :=
  load_strict_on_malformed "not yaml [" "  \n " (fun _ => none) true
    (by decide) rfl (by decide)
